import Mathlib

/-!
Verification of the muncon covariance engine (`src/muncon/utils.py` and
`src/muncon/fileio.py`) against its natural-language specification.

Python/numpy double-precision arrays are modelled as exact rational
arrays over `ℚ`: a numpy 2-D array is a `Matrix (Fin _) (Fin _) ℚ`, a
stack of per-frequency matrices is a function `Fin F → Matrix _ _ ℚ`,
and arrays addressed by numpy fancy indexing with unchecked bounds are
modelled as total functions over `ℕ`.  Calls into external numeric
libraries (LAPACK `eigh`, `math.cos`, `math.sin`, `10 ** x`) are
modelled as explicit parameters, constrained by hypotheses where the
library documents a contract (e.g. `eigh` returns an orthogonal
eigenbasis of a symmetric matrix).
-/

open Matrix

/-- `np.finfo(float).eps` for IEEE-754 double precision: `2 ^ (-52)`. -/
def machineEps : ℚ := 1 / 2 ^ 52

/-- The per-frequency deviation matrix of `MeasFile.build_covariance`
(fileio.py line 109: `deviations = sparam_array - mean`, broadcast over
the sample axis, line 110: sample and frequency axes swapped).  Row `n`
of `deviations_matrix … f` is sample `n`'s flattened S-parameter row at
frequency `f` minus the mean row at `f`. -/
def deviations_matrix (N F K : ℕ) (sparam_array : Fin N → Fin F → Fin K → ℚ)
    (mean : Fin F → Fin K → ℚ) (f : Fin F) : Matrix (Fin N) (Fin K) ℚ :=
  Matrix.of fun n k => sparam_array n f k - mean f k

/-- `MeasFile.build_covariance` (fileio.py lines 107-116): per frequency
`f`, form `deviations_fᵀ · deviations_f` (line 114, `np.dot` of the
transposed per-frequency deviation block with itself) and divide the
whole stack entrywise by `len(sparam_array) - 1 = N - 1` (line 115). -/
def build_covariance (N F K : ℕ) (sparam_array : Fin N → Fin F → Fin K → ℚ)
    (mean : Fin F → Fin K → ℚ) : Fin F → Matrix (Fin K) (Fin K) ℚ :=
  fun f => Matrix.of fun i j =>
    ((deviations_matrix N F K sparam_array mean f)ᵀ *
      deviations_matrix N F K sparam_array mean f) i j / ((N : ℚ) - 1)

/-- `MeasFile.build_mc_covariance` (fileio.py lines 84-95): the mean is
the ensemble arithmetic mean over the sample axis (`sparam_array.mean(0)`)
when `use_mc_mean` is truthy, otherwise the estimate's own S-parameters
(`self.estimate.s`); the covariance is `build_covariance` of the sample
stack about that mean.  The returned pair is what the method stores via
`set_sparams` / `set_covariance`. -/
def build_mc_covariance (N F K : ℕ) (use_mc_mean : Bool)
    (mc_sparams : Fin N → Fin F → Fin K → ℚ) (estimate_s : Fin F → Fin K → ℚ) :
    (Fin F → Fin K → ℚ) × (Fin F → Matrix (Fin K) (Fin K) ℚ) :=
  let mean : Fin F → Fin K → ℚ :=
    if use_mc_mean then (fun f k => (∑ n, mc_sparams n f k) / (N : ℚ))
    else estimate_s
  (mean, build_covariance N F K mc_sparams mean)

lemma dotProduct_eq_sum (K : ℕ) (y z : Fin K → ℚ) : y ⬝ᵥ z = ∑ n, y n * z n := rfl

lemma dotProduct_self_nonneg (K : ℕ) (y : Fin K → ℚ) : 0 ≤ y ⬝ᵥ y := by
  rw [dotProduct_eq_sum]
  exact Finset.sum_nonneg fun n _ => mul_self_nonneg (y n)

lemma dotProduct_self_pos (K : ℕ) (x : Fin K → ℚ) (hx : x ≠ 0) : 0 < x ⬝ᵥ x := by
  obtain ⟨k, hk⟩ := Function.ne_iff.mp hx
  rw [dotProduct_eq_sum]
  refine Finset.sum_pos' (fun n _ => mul_self_nonneg (x n)) ⟨k, Finset.mem_univ k, ?_⟩
  exact mul_self_pos.mpr (by simpa using hk)

lemma gram_quadform (N K : ℕ) (D : Matrix (Fin N) (Fin K) ℚ) (x : Fin K → ℚ) :
    x ⬝ᵥ (Dᵀ * D) *ᵥ x = (D *ᵥ x) ⬝ᵥ (D *ᵥ x) := by
  rw [← Matrix.mulVec_mulVec, Matrix.dotProduct_mulVec, Matrix.vecMul_transpose]

lemma build_covariance_eq_smul (N F K : ℕ) (X : Fin N → Fin F → Fin K → ℚ)
    (mean : Fin F → Fin K → ℚ) (f : Fin F) :
    build_covariance N F K X mean f =
      ((N : ℚ) - 1)⁻¹ •
        ((deviations_matrix N F K X mean f)ᵀ * deviations_matrix N F K X mean f) := by
  ext i j
  simp [build_covariance, Matrix.smul_apply, div_eq_inv_mul]

/-- Claim C10: every per-frequency matrix produced by `build_covariance`
from a real-valued sample array with `N ≥ 2` samples is symmetric and
positive semi-definite by construction: it is the Gram matrix
`deviationsᵀ · deviations` scaled by the positive factor `1/(N-1)`,
before any repair step is applied. -/
theorem build_covariance_symm_psd (N F K : ℕ) (X : Fin N → Fin F → Fin K → ℚ)
    (mean : Fin F → Fin K → ℚ) (hN : 2 ≤ N) (f : Fin F) :
    (build_covariance N F K X mean f)ᵀ = build_covariance N F K X mean f ∧
    ∀ x : Fin K → ℚ, 0 ≤ x ⬝ᵥ (build_covariance N F K X mean f) *ᵥ x := by
  have hc : (0 : ℚ) ≤ ((N : ℚ) - 1)⁻¹ := by
    have h2 : (2 : ℚ) ≤ (N : ℚ) := by exact_mod_cast hN
    have : (0 : ℚ) ≤ (N : ℚ) - 1 := by linarith
    exact inv_nonneg.mpr this
  constructor
  · ext i j
    simp only [build_covariance, Matrix.transpose_apply, Matrix.of_apply,
      Matrix.mul_apply]
    congr 1
    exact Finset.sum_congr rfl fun n _ => mul_comm _ _
  · intro x
    rw [build_covariance_eq_smul, Matrix.smul_mulVec_assoc, Matrix.dotProduct_smul,
      smul_eq_mul, gram_quadform]
    exact mul_nonneg hc (dotProduct_self_nonneg N _)

def Xtwo : Fin 2 → Fin 1 → Fin 1 → ℚ := fun n _ _ => (n : ℚ)

def meanHalf : Fin 1 → Fin 1 → ℚ := fun _ _ => 1 / 2

theorem build_covariance_symm_psd_witness :
    2 ≤ 2 ∧ (build_covariance 2 1 1 Xtwo meanHalf 0)ᵀ =
      build_covariance 2 1 1 Xtwo meanHalf 0 :=
  ⟨by decide, (build_covariance_symm_psd 2 1 1 Xtwo meanHalf (by decide) 0).1⟩

/-- Claim C4: for an ensemble of `N ≥ 2` samples, `build_mc_covariance`
computes, per frequency `f`, `covariance_f = deviationsᵀ_f · deviations_f
/ (N - 1)`, where the deviations subtract the mean row at `f` from each
sample's S-parameter row at `f`, and the mean is the ensemble arithmetic
mean when `use_mc_mean` is truthy and the estimate's (reference's)
S-parameter row at `f` otherwise. -/
theorem build_mc_covariance_correct (N F K : ℕ) (b : Bool)
    (mc : Fin N → Fin F → Fin K → ℚ) (est : Fin F → Fin K → ℚ) (_hN : 2 ≤ N)
    (f : Fin F) (i j : Fin K) :
    (build_mc_covariance N F K b mc est).1 =
      (if b then (fun g k => (∑ n, mc n g k) / (N : ℚ)) else est) ∧
    (build_mc_covariance N F K b mc est).2 f i j =
      (∑ n, (mc n f i - (build_mc_covariance N F K b mc est).1 f i) *
            (mc n f j - (build_mc_covariance N F K b mc est).1 f j)) /
        ((N : ℚ) - 1) := by
  constructor
  · rfl
  · simp only [build_mc_covariance, build_covariance, deviations_matrix,
      Matrix.of_apply, Matrix.mul_apply, Matrix.transpose_apply]

def XtwoB : Fin 2 → Fin 1 → Fin 1 → ℚ := fun n _ _ => (n : ℚ) + 1

def estOne : Fin 1 → Fin 1 → ℚ := fun _ _ => 1

theorem build_mc_covariance_correct_witness :
    2 ≤ 2 ∧ (build_mc_covariance 2 1 1 true XtwoB estOne).2 0 0 0 =
      (∑ n, (XtwoB n 0 0 - (build_mc_covariance 2 1 1 true XtwoB estOne).1 0 0) *
            (XtwoB n 0 0 - (build_mc_covariance 2 1 1 true XtwoB estOne).1 0 0)) /
        (((2 : ℕ) : ℚ) - 1) :=
  ⟨by decide, (build_mc_covariance_correct 2 1 1 true XtwoB estOne (by decide) 0 0 0).2⟩

def Xsingle : Fin 1 → Fin 1 → Fin 1 → ℚ := fun _ _ _ => 2

def meanSingle : Fin 1 → Fin 1 → ℚ := fun _ _ => 1

/-- Claim C5 evaluation: `build_covariance` performs no sample-count or
frequency-axis validation at all.  Fed a single-sample ensemble
(`N = 1`) it still runs to completion and produces a result array whose
entries are the unnormalised cross products divided by `N - 1 = 0`
(numpy emits a `RuntimeWarning` and returns `inf`/`nan` entries — it
does not raise; in this exact-rational model division by zero yields
`0`).  No `InsufficientSamples` error exists in the code, and the
samples' frequency axes are never compared with the reference's, so no
`FrequencyMismatch` error can occur either. -/
theorem build_covariance_no_validation :
    build_covariance 1 1 1 Xsingle meanSingle 0 0 0 = 1 / (((1 : ℕ) : ℚ) - 1) ∧
    ((1 : ℕ) : ℚ) - 1 = 0 := by
  constructor
  · simp [build_covariance, deviations_matrix, Matrix.mul_apply, Xsingle, meanSingle]
  · norm_num

/-- First line of `MeasFile.repair_cv` (fileio.py line 145):
`v2 = np.triu(v, 1) + np.diag(np.diag(v)) + np.tril(v, -1)`, i.e. the
strict upper triangle of `v`, plus the diagonal of `v`, plus the strict
lower triangle of `v`. -/
def repair_symmetrize (K : ℕ) (v : Matrix (Fin K) (Fin K) ℚ) :
    Matrix (Fin K) (Fin K) ℚ :=
  Matrix.of fun i j =>
    (if (i : ℕ) < (j : ℕ) then v i j else 0) +
    (if (i : ℕ) = (j : ℕ) then v i j else 0) +
    (if (j : ℕ) < (i : ℕ) then v i j else 0)

/-- `MeasFile.repair_cv` (fileio.py lines 143-150).  The call
`d, q = np.linalg.eigh(v2)` into LAPACK is modelled by taking the
eigenvalues `d` and eigenvector matrix `q` as parameters; theorems about
`repair_cv` constrain them by the contract of `eigh` on a symmetric
matrix (`v2 = q · diag d · qᵀ` with `qᵀ · q = 1`).  The function then
clips: `d_rep = np.maximum(d, eps · ones)` elementwise, and reconstructs
`v_rep = q · diag(d_rep) · qᵀ`. -/
def repair_cv (K : ℕ) (v : Matrix (Fin K) (Fin K) ℚ) (d : Fin K → ℚ)
    (q : Matrix (Fin K) (Fin K) ℚ) : Matrix (Fin K) (Fin K) ℚ :=
  q * Matrix.diagonal (fun i => max (d i) machineEps) * qᵀ

lemma qdq_quadform (K : ℕ) (q : Matrix (Fin K) (Fin K) ℚ) (e x : Fin K → ℚ) :
    x ⬝ᵥ (q * Matrix.diagonal e * qᵀ) *ᵥ x =
      ∑ i, e i * ((qᵀ *ᵥ x) i * (qᵀ *ᵥ x) i) := by
  rw [← Matrix.mulVec_mulVec, ← Matrix.mulVec_mulVec, Matrix.dotProduct_mulVec,
    ← Matrix.mulVec_transpose]
  rw [dotProduct_eq_sum]
  refine Finset.sum_congr rfl fun i _ => ?_
  rw [Matrix.mulVec_diagonal]
  ring

lemma transpose_mulVec_norm (K : ℕ) (q : Matrix (Fin K) (Fin K) ℚ)
    (hq : qᵀ * q = 1) (x : Fin K → ℚ) :
    (qᵀ *ᵥ x) ⬝ᵥ (qᵀ *ᵥ x) = x ⬝ᵥ x := by
  have hq1 : q * qᵀ = 1 := Matrix.mul_eq_one_comm.mp hq
  calc (qᵀ *ᵥ x) ⬝ᵥ (qᵀ *ᵥ x)
      = ((qᵀ *ᵥ x) ᵥ* qᵀ) ⬝ᵥ x := by rw [Matrix.dotProduct_mulVec]
    _ = (q *ᵥ (qᵀ *ᵥ x)) ⬝ᵥ x := by rw [Matrix.vecMul_transpose]
    _ = ((q * qᵀ) *ᵥ x) ⬝ᵥ x := by rw [Matrix.mulVec_mulVec]
    _ = x ⬝ᵥ x := by rw [hq1, Matrix.one_mulVec]

lemma machineEps_pos : (0 : ℚ) < machineEps := by norm_num [machineEps]

lemma repair_cv_quadform_lower (K : ℕ) (v : Matrix (Fin K) (Fin K) ℚ)
    (d : Fin K → ℚ) (q : Matrix (Fin K) (Fin K) ℚ) (hq : qᵀ * q = 1)
    (x : Fin K → ℚ) :
    machineEps * (x ⬝ᵥ x) ≤ x ⬝ᵥ (repair_cv K v d q) *ᵥ x := by
  have h1 : x ⬝ᵥ (repair_cv K v d q) *ᵥ x =
      ∑ i, max (d i) machineEps * ((qᵀ *ᵥ x) i * (qᵀ *ᵥ x) i) :=
    qdq_quadform K q (fun i => max (d i) machineEps) x
  have h2 : ∑ i, machineEps * ((qᵀ *ᵥ x) i * (qᵀ *ᵥ x) i) ≤
      ∑ i, max (d i) machineEps * ((qᵀ *ᵥ x) i * (qᵀ *ᵥ x) i) :=
    Finset.sum_le_sum fun i _ =>
      mul_le_mul_of_nonneg_right (le_max_right _ _) (mul_self_nonneg _)
  have h3 : machineEps * ((qᵀ *ᵥ x) ⬝ᵥ (qᵀ *ᵥ x)) =
      ∑ i, machineEps * ((qᵀ *ᵥ x) i * (qᵀ *ᵥ x) i) := by
    rw [dotProduct_eq_sum, Finset.mul_sum]
  rw [h1, ← transpose_mulVec_norm K q hq x, h3]
  exact h2

/-- Claim C1: for every square symmetric real matrix `C` handed to
`repair_cv` (with `eigh`'s output constrained by its contract: an
orthogonal eigenbasis of the symmetrised matrix), every eigenvalue of
the returned matrix is at least machine epsilon; consequently the
returned matrix is symmetric and positive semi-definite — indeed its
quadratic form is bounded below by `machineEps · ‖x‖²`, the standard
criterion making it positive definite and hence Cholesky-factorizable.
This holds in particular when `C` has negative eigenvalues (negative
entries of `d`). -/
theorem repair_cv_psd (K : ℕ) (v q : Matrix (Fin K) (Fin K) ℚ) (d : Fin K → ℚ)
    (hv : vᵀ = v) (heig : repair_symmetrize K v = q * Matrix.diagonal d * qᵀ)
    (hq : qᵀ * q = 1) (μ : ℚ) (x : Fin K → ℚ) (hx : x ≠ 0)
    (heq : (repair_cv K v d q) *ᵥ x = μ • x) :
    machineEps ≤ μ ∧ (repair_cv K v d q)ᵀ = repair_cv K v d q ∧
      ∀ z : Fin K → ℚ, machineEps * (z ⬝ᵥ z) ≤ z ⬝ᵥ (repair_cv K v d q) *ᵥ z := by
  refine ⟨?_, ?_, fun z => repair_cv_quadform_lower K v d q hq z⟩
  · have hbound := repair_cv_quadform_lower K v d q hq x
    have hμx : x ⬝ᵥ (repair_cv K v d q) *ᵥ x = μ * (x ⬝ᵥ x) := by
      rw [heq, Matrix.dotProduct_smul, smul_eq_mul]
    rw [hμx] at hbound
    exact le_of_mul_le_mul_right hbound (dotProduct_self_pos K x hx)
  · show (q * Matrix.diagonal (fun i => max (d i) machineEps) * qᵀ)ᵀ = _
    rw [Matrix.transpose_mul, Matrix.transpose_mul, Matrix.transpose_transpose,
      Matrix.diagonal_transpose, ← Matrix.mul_assoc]
    rfl

def vNeg : Matrix (Fin 1) (Fin 1) ℚ := Matrix.of fun _ _ => -1

def dNeg : Fin 1 → ℚ := fun _ => -1

def qId : Matrix (Fin 1) (Fin 1) ℚ := 1

def xOne : Fin 1 → ℚ := fun _ => 1

theorem repair_cv_psd_witness :
    (qIdᵀ * qId = 1) ∧ machineEps ≤ machineEps := by
  have hq : qIdᵀ * qId = 1 := by simp [qId]
  have hv : vNegᵀ = vNeg := rfl
  have heig : repair_symmetrize 1 vNeg = qId * Matrix.diagonal dNeg * qIdᵀ := by
    ext i j
    fin_cases i
    fin_cases j
    simp [repair_symmetrize, vNeg, qId, dNeg]
  have hx : xOne ≠ 0 := by
    intro h
    have h0 := congrFun h 0
    simp [xOne] at h0
  have hR : repair_cv 1 vNeg dNeg qId = Matrix.diagonal (fun _ => machineEps) := by
    have hmax : (fun i : Fin 1 => max (dNeg i) machineEps) = fun _ => machineEps :=
      funext fun i => max_eq_right (by norm_num [dNeg, machineEps])
    simp [repair_cv, qId, hmax]
  have heq : (repair_cv 1 vNeg dNeg qId) *ᵥ xOne = machineEps • xOne := by
    rw [hR]
    funext k
    rw [Matrix.mulVec_diagonal]
    simp [xOne]
  exact ⟨hq, (repair_cv_psd 1 vNeg qId dNeg hv heig hq machineEps xOne hx heq).1⟩

lemma repair_symmetrize_eq_self (K : ℕ) (v : Matrix (Fin K) (Fin K) ℚ) :
    repair_symmetrize K v = v := by
  ext i j
  simp only [repair_symmetrize, Matrix.of_apply]
  rcases lt_trichotomy (i : ℕ) (j : ℕ) with h | h | h
  · rw [if_pos h, if_neg (by omega), if_neg (by omega)]; ring
  · rw [if_neg (by omega), if_pos h, if_neg (by omega)]; ring
  · rw [if_neg (by omega), if_neg (by omega), if_pos h]; ring

def asym2 : Matrix (Fin 2) (Fin 2) ℚ :=
  Matrix.of fun i j => if (i : ℕ) = 0 ∧ (j : ℕ) = 1 then 1 else 0

/-- Claim C3 evaluation: the "symmetrize" line of `repair_cv` recombines
the strict upper triangle, the diagonal, and the strict *lower* triangle
of `v` — it reproduces `v` exactly for every square matrix, performing no
mirroring at all.  On the asymmetric input `[[0,1],[0,0]]` the produced
`v2` is therefore not symmetric, contradicting the claimed
`v2 = v2ᵀ`.  (The slip is masked downstream only because `np.linalg.eigh`
reads a single triangle of its argument.) -/
theorem repair_symmetrize_no_mirror :
    (∀ (K : ℕ) (v : Matrix (Fin K) (Fin K) ℚ), repair_symmetrize K v = v) ∧
    (repair_symmetrize 2 asym2)ᵀ ≠ repair_symmetrize 2 asym2 := by
  refine ⟨repair_symmetrize_eq_self, ?_⟩
  rw [repair_symmetrize_eq_self]
  intro hcon
  have h01 : asym2ᵀ 0 1 = asym2 0 1 := by rw [hcon]
  have e1 : asym2ᵀ 0 1 = 0 := rfl
  have e2 : asym2 0 1 = 1 := rfl
  rw [e1, e2] at h01
  exact absurd h01 (by norm_num)

/-- The numpy fancy-index column swap `a[:, [i, j]] = a[:, [j, i]]`
exchanges positions `i` and `j` along one axis; as an index map it is the
transposition of `i` and `j`. -/
def swapPair (a b j : ℕ) : ℕ :=
  if j = a then b else if j = b then a else j

/-- `Usnp.swap_s12_s21` (utils.py lines 69-76), on an `F × 8` flattened
2-port S-parameter array (row layout `[S11r, S11i, S12r, S12i, S21r,
S21i, S22r, S22i]`): first `sparams[:, [2, 4]] = sparams[:, [4, 2]]`,
then `sparams[:, [3, 5]] = sparams[:, [5, 3]]`.  Arrays are modelled as
total functions of (frequency row, column). -/
def swap_s12_s21 (sparams : ℕ → ℕ → ℚ) : ℕ → ℕ → ℚ :=
  let s1 : ℕ → ℕ → ℚ := fun f j => sparams f (swapPair 2 4 j)
  let s2 : ℕ → ℕ → ℚ := fun f j => s1 f (swapPair 3 5 j)
  s2

/-- `Usnp.swap_v12_v21` (utils.py lines 78-84) on an `F × K × K`
covariance stack, modelled as a total function of (frequency, row,
column).  The four in-place statements are, in order:
`covariance[:, [2, 4]] = covariance[:, [4, 2]]` (axis 1: rows of each
per-frequency matrix), `covariance[:, [3, 5]] = covariance[:, [5, 3]]`
(axis 1), `covariance[[2, 4], :] = covariance[[4, 2], :]` (axis 0: the
*frequency* axis), `covariance[[3, 5], :] = covariance[[5, 3], :]`
(axis 0).  The column axis (axis 2) is never touched.  (For stacks with
fewer than 6 frequencies the axis-0 fancy indexing would raise an
`IndexError` in numpy; the model is the in-range behaviour.) -/
def swap_v12_v21 (covariance : ℕ → ℕ → ℕ → ℚ) : ℕ → ℕ → ℕ → ℚ :=
  let v1 : ℕ → ℕ → ℕ → ℚ := fun f i j => covariance f (swapPair 2 4 i) j
  let v2 : ℕ → ℕ → ℕ → ℚ := fun f i j => v1 f (swapPair 3 5 i) j
  let v3 : ℕ → ℕ → ℕ → ℚ := fun f i j => v2 (swapPair 2 4 f) i j
  let v4 : ℕ → ℕ → ℕ → ℚ := fun f i j => v3 (swapPair 3 5 f) i j
  v4

lemma swapPair_comp_invol (j : ℕ) :
    swapPair 2 4 (swapPair 3 5 (swapPair 2 4 (swapPair 3 5 j))) = j := by
  unfold swapPair
  split_ifs <;> omega

/-- Claim C7: `swap_s12_s21` is an involution — applying it twice to any
flattened 2-port row array returns the original array — and a single
application exchanges exactly the flattened S12 positions (columns 2, 3)
with the flattened S21 positions (columns 4, 5), leaving the S11
positions (columns 0, 1) and S22 positions (columns 6, 7) untouched. -/
theorem swap_s12_s21_involution :
    (∀ s : ℕ → ℕ → ℚ, swap_s12_s21 (swap_s12_s21 s) = s) ∧
    (∀ (s : ℕ → ℕ → ℚ) (f : ℕ),
      swap_s12_s21 s f 2 = s f 4 ∧ swap_s12_s21 s f 3 = s f 5 ∧
      swap_s12_s21 s f 4 = s f 2 ∧ swap_s12_s21 s f 5 = s f 3 ∧
      swap_s12_s21 s f 0 = s f 0 ∧ swap_s12_s21 s f 1 = s f 1 ∧
      swap_s12_s21 s f 6 = s f 6 ∧ swap_s12_s21 s f 7 = s f 7) := by
  constructor
  · intro s
    funext f j
    show s f (swapPair 2 4 (swapPair 3 5 (swapPair 2 4 (swapPair 3 5 j)))) = s f j
    rw [swapPair_comp_invol]
  · intro s f
    exact ⟨rfl, rfl, rfl, rfl, rfl, rfl, rfl, rfl⟩

/-- A stack of symmetric (real Hermitian) per-frequency matrices:
`vHerm f` has its only nonzero entries at `(0, 4)` and `(4, 0)`, the
same at every frequency `f`. -/
def vHerm : ℕ → ℕ → ℕ → ℚ :=
  fun _ i j => if (i = 0 ∧ j = 4) ∨ (i = 4 ∧ j = 0) then 1 else 0

/-- Claim C6 evaluation: `swap_v12_v21` applies the S12/S21 index
transposition to the row axis of each per-frequency matrix and to the
*frequency* axis of the stack — not to the column axis — so in general
`swap_v12_v21 v f i j = v (σ f) (σ i) j` where `σ` is the transposition
`2↔4, 3↔5`.  Applied to the stack `vHerm` of symmetric matrices it
produces a slice with entry `(2, 0)` equal to `1` but entry `(0, 2)`
equal to `0`: the result is not Hermitian, contradicting the claim that
the same permutation is applied to both the row and column axes and
preserves Hermitian symmetry. -/
theorem swap_v12_v21_not_hermitian :
    (∀ (v : ℕ → ℕ → ℕ → ℚ) (f i j : ℕ),
      swap_v12_v21 v f i j =
        v (swapPair 2 4 (swapPair 3 5 f)) (swapPair 2 4 (swapPair 3 5 i)) j) ∧
    (∀ f i j, vHerm f i j = vHerm f j i) ∧
    swap_v12_v21 vHerm 0 2 0 = 1 ∧ swap_v12_v21 vHerm 0 0 2 = 0 := by
  refine ⟨fun v f i j => rfl, ?_, rfl, rfl⟩
  intro f i j
  simp only [vHerm]
  have hiff : ((i = 0 ∧ j = 4) ∨ (i = 4 ∧ j = 0)) ↔
      ((j = 0 ∧ i = 4) ∨ (j = 4 ∧ i = 0)) := by tauto
  exact if_congr hiff rfl rfl

/-- `Usnp.format_sparam` (utils.py lines 86-109).  A `(value1, value2)`
S-parameter pair is converted between the representations `"RI"`, `"MA"`
and `"DB"`.  The Python function returns `None` (here `none`) on every
branch marked `#TODO` that has no `return` expression, and also when an
`elif` chain is exhausted.  The float math-library calls are parameters:
`cosd`/`sind` stand for `cos(radians ·)`/`sin(radians ·)` on an angle in
degrees, and `pow10` for `10 ** ·`. -/
def format_sparam (cosd sind pow10 : ℚ → ℚ) (sparam : ℚ × ℚ)
    (old_format new_format : String) : Option (ℚ × ℚ) :=
  if old_format = new_format then some sparam
  else if old_format = "RI" then
    (if new_format = "MA" then none
     else if new_format = "DB" then none
     else none)
  else if old_format = "MA" then
    (if new_format = "RI" then
       some (sparam.1 * cosd sparam.2, sparam.1 * sind sparam.2)
     else if new_format = "DB" then none
     else none)
  else if old_format = "DB" then
    (if new_format = "RI" then
       some (pow10 (sparam.1 / 20) * cosd sparam.2,
             pow10 (sparam.1 / 20) * sind sparam.2)
     else if new_format = "MA" then none
     else none)
  else some sparam

/-- `SnpFile.get_ri_sparam` (fileio.py lines 196-205): converts a parsed
`(value1, value2)` pair to RI according to the file's format tag; any
tag other than `"MA"`/`"DB"` (including `"RI"` and the empty tag of a
header-less file) passes the pair through. -/
def get_ri_sparam (cosd sind pow10 : ℚ → ℚ) (fmt : String)
    (sparam : ℚ × ℚ) : ℚ × ℚ :=
  if fmt = "MA" then (sparam.1 * cosd sparam.2, sparam.1 * sind sparam.2)
  else if fmt = "DB" then
    (pow10 (sparam.1 / 20) * cosd sparam.2, pow10 (sparam.1 / 20) * sind sparam.2)
  else sparam

/-- Claim C8 evaluation: the forward conversions out of RI do not exist
in the code — `format_sparam` is an unfinished `#TODO` stub that returns
`None` for `RI→MA` and for `RI→DB` (for any input pair and any math
library), and no other function produces MA or DB values — so neither
round trip `RI→MA→RI` nor `RI→DB→RI` can reproduce anything.  (The
backward conversions `MA→RI`/`DB→RI` do exist, both here and in
`get_ri_sparam`.) -/
theorem format_sparam_ri_conversion_stub (cosd sind pow10 : ℚ → ℚ)
    (sparam : ℚ × ℚ) :
    format_sparam cosd sind pow10 sparam "RI" "MA" = none ∧
    format_sparam cosd sind pow10 sparam "RI" "DB" = none ∧
    get_ri_sparam cosd sind pow10 "MA" sparam =
      (sparam.1 * cosd sparam.2, sparam.1 * sind sparam.2) :=
  ⟨rfl, rfl, rfl⟩

/-- `SnpFile.f_unit_dict` (fileio.py lines 160-165): the literal
frequency-unit multiplier table `{'Hz': 1, 'KHz': 1e3, 'MHz': 1e6,
'GHZ': 1e9}`.  Python dict lookup `f_unit_dict[tag]` raises `KeyError`
for a missing key, modelled as `none`. -/
def f_unit_dict (tag : String) : Option ℚ :=
  if tag = "Hz" then some 1
  else if tag = "KHz" then some 1000
  else if tag = "MHz" then some 1000000
  else if tag = "GHZ" then some 1000000000
  else none

/-- The data-line handling of `SnpFile.read` (fileio.py lines 189-191):
a parsed numeric line contributes `lineparts[0] * self.f_multiplier` to
`freqs` and `lineparts[1:]` to `sparams`; an empty line of numbers would
raise `IndexError` (`none`). -/
def read_data_line (f_multiplier : ℚ) : List ℚ → Option (ℚ × List ℚ)
  | [] => none
  | x :: rest => some (x * f_multiplier, rest)

/-- Claim C9 counterexample: the claim says the tag `GHz` maps to `1e9`,
but the table's key is `GHZ` (capital Z); looking up `GHz` raises
`KeyError` (`none`). -/
theorem f_unit_dict_GHz_missing : f_unit_dict "GHz" = none := rfl

/-- Claim C9 as amended: the multiplier table maps exactly the tags
`Hz`, `KHz`, `MHz`, `GHZ` to `1`, `1e3`, `1e6`, `1e9`; every other tag —
including `GHz` — fails the lookup with a `KeyError`; and on read the
stored frequency is the raw column value times the multiplier. -/
theorem f_unit_dict_amended :
    f_unit_dict "Hz" = some 1 ∧ f_unit_dict "KHz" = some 1000 ∧
    f_unit_dict "MHz" = some 1000000 ∧ f_unit_dict "GHZ" = some 1000000000 ∧
    (∀ tag : String, tag ≠ "Hz" → tag ≠ "KHz" → tag ≠ "MHz" → tag ≠ "GHZ" →
      f_unit_dict tag = none) ∧
    (∀ (mult x : ℚ) (rest : List ℚ),
      read_data_line mult (x :: rest) = some (x * mult, rest)) := by
  refine ⟨rfl, rfl, rfl, rfl, ?_, fun mult x rest => rfl⟩
  intro tag h1 h2 h3 h4
  simp [f_unit_dict, h1, h2, h3, h4]

theorem f_unit_dict_amended_witness :
    ("GHz" : String) ≠ "Hz" ∧ f_unit_dict "GHz" = none :=
  ⟨by decide,
    f_unit_dict_amended.2.2.2.2.1 "GHz" (by decide) (by decide) (by decide)
      (by decide)⟩

/-- The sampling loop of `MeasFile.mc_from_cv` (fileio.py lines 128-141).
`sample` is initialised once, before the loop over the requested count,
as a copy of the mean (`sample = np.copy(mean)`, line 130); on every
iteration `m` and for every frequency `i_freq` the code draws a random
vector and executes `sample[i_freq] = sample[i_freq] +
np.dot(chol[i_freq].transpose(), random)` — mutating the same `sample`
array.  `mc_sample_state … m` is the content of `sample` after `m`
iterations; the random draws are an input stream `random m f`. -/
def mc_sample_state (F K : ℕ) (chol : Fin F → Matrix (Fin K) (Fin K) ℚ)
    (mean : Fin F → Fin K → ℚ) (random : ℕ → Fin F → Fin K → ℚ) :
    ℕ → Fin F → Fin K → ℚ
  | 0 => mean
  | m + 1 => fun f k =>
      mc_sample_state F K chol mean random m f k + ((chol f)ᵀ *ᵥ random m f) k

/-- The value of the (shared, still-mutating) `sample` array at the
moment output sample `m` is appended by `u.set_sparams(sample)`
(fileio.py line 140): the state after `m + 1` iterations. -/
def mc_from_cv_sample (F K : ℕ) (chol : Fin F → Matrix (Fin K) (Fin K) ℚ)
    (mean : Fin F → Fin K → ℚ) (random : ℕ → Fin F → Fin K → ℚ) (m : ℕ) :
    Fin F → Fin K → ℚ :=
  mc_sample_state F K chol mean random (m + 1)

def cholOne : Fin 1 → Matrix (Fin 1) (Fin 1) ℚ := fun _ => 1

def meanZero : Fin 1 → Fin 1 → ℚ := fun _ _ => 0

def randOne : ℕ → Fin 1 → Fin 1 → ℚ := fun _ _ _ => 1

/-- Claim C2 evaluation: the sampler does *not* restart from the mean
for each output sample — the shared `sample` array accumulates.  With a
single frequency, a 1×1 Cholesky factor `[[1]]`, mean `0` and every
random draw equal to `1`, the second appended sample (index `m = 1`)
equals `2 = mean + cholᵀ·r₀ + cholᵀ·r₁`, not the claimed
`mean + cholᵀ·r₁ = 1`.  (Independently of this, the draws come from
`np.random.rand` — uniform on `[0, 1)` — not from a standard normal
distribution, and every appended `Usnp` aliases the same array object.) -/
theorem mc_from_cv_accumulates :
    mc_from_cv_sample 1 1 cholOne meanZero randOne 1 0 0 = 2 ∧
    meanZero 0 0 + ((cholOne 0)ᵀ *ᵥ randOne 1 0) 0 = 1 ∧ (2 : ℚ) ≠ 1 := by
  refine ⟨?_, ?_, by norm_num⟩
  · show mc_sample_state 1 1 cholOne meanZero randOne 2 0 0 = 2
    have h1 : ∀ m f, ((cholOne f)ᵀ *ᵥ randOne m f) 0 = 1 := by
      intro m f
      rw [cholOne, Matrix.transpose_one, Matrix.one_mulVec]
      rfl
    have h0 : mc_sample_state 1 1 cholOne meanZero randOne 0 0 0 = 0 := rfl
    have hs1 : mc_sample_state 1 1 cholOne meanZero randOne 1 0 0 = 1 := by
      show mc_sample_state 1 1 cholOne meanZero randOne 0 0 0 +
        ((cholOne 0)ᵀ *ᵥ randOne 0 0) 0 = 1
      rw [h0, h1]
      norm_num
    show mc_sample_state 1 1 cholOne meanZero randOne 1 0 0 +
      ((cholOne 0)ᵀ *ᵥ randOne 1 0) 0 = 2
    rw [hs1, h1]
    norm_num
  · have h1 : ((cholOne 0)ᵀ *ᵥ randOne 1 0) 0 = 1 := by
      rw [cholOne, Matrix.transpose_one, Matrix.one_mulVec]
      rfl
    rw [h1]
    show (0 : ℚ) + 1 = 1
    norm_num
